import Mathlib

/-!
Verification of the FlexiPrice discount engine and batch recomputation
pipeline, shallowly embedded from `backend/app/core/discount_engine.py`,
`backend/app/services/batch_discount_service.py`,
`backend/app/services/discount_service.py` and `backend/app/tasks.py`.

Prices and discount fractions are modelled as exact rationals; the
`datetime` values, which only ever face order comparisons and a null test,
are modelled as integers.  `days_to_expiry = (expiry_date - date.today()).days`
is taken as an integer input, exactly as the engine consumes it.
-/

namespace FlexiPrice

/-- One comparator dictionary such as `{"lte": 7, "gt": 2}` appearing under a
rule's `condition` key in `discount_rules.yaml`, or a bare number (`exact`).
`DiscountRule.evaluate` reads only the keys `lte`, `gte`, `gt`, `lt`; a
dictionary carrying none of them (empty, or only misspelled keys) is
`range none none none none`. -/
inductive CondEntry where
  | exact (v : Int)
  | range (lte gte gt lt : Option Int)
deriving Repr, DecidableEq

/-- The `condition` dictionary of a rule: optional entries for the two field
names `DiscountRule.evaluate` inspects. -/
structure RuleCondition where
  days_to_expiry : Option CondEntry
  quantity : Option CondEntry
deriving Repr, DecidableEq

/-- Structure `DiscountRule` from `discount_engine.py` (lines 18-25). -/
structure DiscountRule where
  name : String
  condition : RuleCondition
  discount : ℚ
  priority : Int
deriving Repr, DecidableEq

/-- The per-entry checks of `DiscountRule.evaluate` (lines 42-55 for
`days_to_expiry`, 61-72 for `quantity`): a dict entry fails when `lte` is
present and `v > lte`, when `gte` is present and `v < gte`, when `gt` is
present and `v <= gt`, or when `lt` is present and `v >= lt`; a bare value
fails when `v` differs from it. -/
def entryOK : CondEntry → Int → Bool
  | .exact w, v => v == w
  | .range lte gte gt lt, v =>
      (match lte with | some t => decide (v ≤ t) | none => true) &&
      (match gte with | some t => decide (t ≤ v) | none => true) &&
      (match gt with | some t => decide (t < v) | none => true) &&
      (match lt with | some t => decide (v < t) | none => true)

/-- Method `DiscountRule.evaluate` (discount_engine.py lines 27-74): the rule
matches when every condition entry present is satisfied. -/
def DiscountRule.evaluate (r : DiscountRule) (days_to_expiry quantity : Int) : Bool :=
  (match r.condition.days_to_expiry with
   | none => true
   | some e => entryOK e days_to_expiry) &&
  (match r.condition.quantity with
   | none => true
   | some e => entryOK e quantity)

/-- Raw rule data as read from the YAML document before construction:
`priority` may be absent (`rule_data.get('priority', 999)`). -/
structure RuleData where
  name : String
  condition : RuleCondition
  discount : ℚ
  priority : Option Int
deriving Repr, DecidableEq

/-- Construction of a `DiscountRule` from raw data (`_load_rules` lines
112-118 and `_get_rules_for_category` lines 140-146): the condition is
passed through unchanged and a missing priority defaults to 999.  The
construction is total: no comparator-name validation occurs. -/
def loadRule (rd : RuleData) : DiscountRule :=
  { name := rd.name
    condition := rd.condition
    discount := rd.discount
    priority := rd.priority.getD 999 }

/-- Stable insertion of a rule into a priority-sorted list: the new rule
goes after strictly smaller priorities and before equal or larger ones,
matching Python's stable `list.sort(key=lambda r: r.priority)`. -/
def insertRule (r : DiscountRule) : List DiscountRule → List DiscountRule
  | [] => [r]
  | x :: xs => if x.priority < r.priority then x :: insertRule r xs else r :: x :: xs

/-- Stable sort by ascending priority (`rules.sort(key=lambda r: r.priority)`). -/
def sortRules : List DiscountRule → List DiscountRule
  | [] => []
  | r :: rs => insertRule r (sortRules rs)

/-- The `defaults` section of the configuration; every access in the engine
goes through `.get` with a fallback, so each field is optional. -/
structure EngineDefaults where
  min_discount : Option ℚ
  max_discount : Option ℚ
  price_floor_multiplier : Option ℚ
deriving Repr, DecidableEq

/-- One entry of `category_overrides`: the engine reads the optional keys
`rules` and `price_floor_multiplier`. -/
structure CategoryOverride where
  price_floor_multiplier : Option ℚ
  rules : Option (List RuleData)
deriving Repr, DecidableEq

/-- Engine state `DiscountEngine` after `_load_rules`: general rules already
sorted by priority, the raw `defaults` and `category_overrides` dicts. -/
structure DiscountEngine where
  rules : List DiscountRule
  defaults : EngineDefaults
  category_overrides : List (String × CategoryOverride)
deriving Repr, DecidableEq

/-- Loading, `_load_rules` (lines 102-131): build the general rules from the raw
document, sort them by priority, keep `defaults` and `category_overrides`. -/
def loadEngine (defaults : EngineDefaults) (ruleData : List RuleData)
    (overrides : List (String × CategoryOverride)) : DiscountEngine :=
  { rules := sortRules (ruleData.map loadRule)
    defaults := defaults
    category_overrides := overrides }

/-- Method `_get_rules_for_category` (lines 133-152): when the category is truthy
(`if category and category in self.category_overrides`) and its override
carries a `rules` key, those rules are built, sorted and returned alone;
in every other case the general rules are returned. -/
def getRulesForCategory (eng : DiscountEngine) (category : Option String) :
    List DiscountRule :=
  match category with
  | some c =>
      if c = "" then eng.rules
      else
        match eng.category_overrides.lookup c with
        | some ov =>
            match ov.rules with
            | some rds => sortRules (rds.map loadRule)
            | none => eng.rules
        | none => eng.rules
  | none => eng.rules

/-- Method `_get_price_floor_multiplier` (lines 154-161): the category override's
`price_floor_multiplier` when the category is truthy and carries one,
otherwise `defaults.get('price_floor_multiplier', 0.20)`. -/
def getPriceFloorMultiplier (eng : DiscountEngine) (category : Option String) : ℚ :=
  match category with
  | some c =>
      if c = "" then eng.defaults.price_floor_multiplier.getD (20 / 100)
      else
        match eng.category_overrides.lookup c with
        | some ov =>
            match ov.price_floor_multiplier with
            | some m => m
            | none => eng.defaults.price_floor_multiplier.getD (20 / 100)
        | none => eng.defaults.price_floor_multiplier.getD (20 / 100)
  | none => eng.defaults.price_floor_multiplier.getD (20 / 100)

/-- Method `_clamp_discount` (lines 236-241):
`max(min_discount, min(discount, max_discount))` with the defaults
`min_discount = 0.0` and `max_discount = 0.80`. -/
def clampDiscount (eng : DiscountEngine) (d : ℚ) : ℚ :=
  max (eng.defaults.min_discount.getD 0) (min d (eng.defaults.max_discount.getD (80 / 100)))

/-- Method `compute_batch_price` (lines 163-234) with
`days_to_expiry = (expiry_date - date.today()).days` already computed.
Expired batches short-circuit with the maximum discount; otherwise the
first matching applicable rule (or none) fixes a tentative price, the
price floor is applied, and the reported fraction is recomputed from the
final price.  Returns `(computed_price, discount_fraction, reason)`. -/
def computeBatchPrice (eng : DiscountEngine) (base_price : ℚ) (days_to_expiry : Int)
    (quantity : Int) (category : Option String) (min_price : Option ℚ) :
    ℚ × ℚ × String :=
  if days_to_expiry < 0 then
    let md := eng.defaults.max_discount.getD (80 / 100)
    (base_price * (1 - md), md, "expired")
  else
    let rules := getRulesForCategory eng category
    let matched := rules.find? (fun r => r.evaluate days_to_expiry quantity)
    let tentative :=
      match matched with
      | some r => (base_price * (1 - clampDiscount eng r.discount), r.name)
      | none => (base_price, "no_rule_matched")
    let minp :=
      match min_price with
      | some m => m
      | none => base_price * getPriceFloorMultiplier eng category
    let final := max tentative.1 minp
    (final, (base_price - final) / base_price, tentative.2)

/-- A persisted `BatchDiscount` row (`models/discount.py`): `valid_to` is
nullable, `valid_from` carries the creation time, `expires_at` an optional
expiry timestamp. -/
structure DiscountRecord where
  id : Nat
  batchId : Int
  computedPrice : ℚ
  discountPct : ℚ
  validFrom : Option Int
  validTo : Option Int
  expiresAt : Option Int
  mlRecommended : Bool
deriving Repr, DecidableEq

/-- The discount store: the rows in database order plus the next
auto-increment id. -/
structure StoreState where
  records : List DiscountRecord
  nextId : Nat
deriving Repr, DecidableEq

/-- The activity filter used by `write_batch_discounts` (lines 52-60):
`validTo = None OR validTo > now`. -/
def activeB (now : Int) (r : DiscountRecord) : Bool :=
  match r.validTo with
  | none => true
  | some t => now < t

/-- Lookup `prisma.batchdiscount.find_first` with the batch/activity filter of
`write_batch_discounts`: the first row for the batch that is active. -/
def findActive (now : Int) (recs : List DiscountRecord) (batchId : Int) :
    Option DiscountRecord :=
  recs.find? (fun r => r.batchId == batchId && activeB now r)

/-- One element of the `discount_data` list handed to
`write_batch_discounts`. -/
structure DData where
  batch_id : Int
  computed_price : ℚ
  discount_pct : ℚ
  expires_at : Option Int
  ml_recommended : Bool
deriving Repr, DecidableEq

/-- The outcome of persisting one decision. -/
inductive WriteAction where
  | created
  | updated
  | unchanged
deriving Repr, DecidableEq

/-- The per-item body of `write_batch_discounts` (lines 47-95): look up the
active record; if found, update price, fraction and expiry in place when
the price moved by more than one cent, else do nothing; if not found,
create a fresh row with `validFrom = now` and `validTo = null`. -/
def writeOne (now : Int) (st : StoreState) (d : DData) : StoreState × WriteAction :=
  match findActive now st.records d.batch_id with
  | some ex =>
      if 1 / 100 < |ex.computedPrice - d.computed_price| then
        (⟨st.records.map (fun r =>
            if r.id == ex.id then
              { r with computedPrice := d.computed_price
                       discountPct := d.discount_pct
                       expiresAt := d.expires_at }
            else r),
          st.nextId⟩, .updated)
      else (st, .unchanged)
  | none =>
      (⟨st.records ++
          [{ id := st.nextId
             batchId := d.batch_id
             computedPrice := d.computed_price
             discountPct := d.discount_pct
             validFrom := some now
             validTo := none
             expiresAt := d.expires_at
             mlRecommended := d.ml_recommended }],
        st.nextId + 1⟩, .created)

/-- The `{"created": ..., "updated": ..., "errors": ...}` statistics dict of
`write_batch_discounts`. -/
structure WriteStats where
  created : Nat
  updated : Nat
  errors : Nat
deriving Repr, DecidableEq

instance : Add WriteStats :=
  ⟨fun a b => ⟨a.created + b.created, a.updated + b.updated, a.errors + b.errors⟩⟩

/-- Add one write outcome to the statistics (the `stats["created"] += 1` /
`stats["updated"] += 1` branches; an unchanged item touches no counter). -/
def bumpStats (a : WriteAction) (s : WriteStats) : WriteStats :=
  match a with
  | .created => { s with created := s.created + 1 }
  | .updated => { s with updated := s.updated + 1 }
  | .unchanged => s

/-- Sequential processing of a list of discount decisions, the inner loop
of `write_batch_discounts`. -/
def writeMany (now : Int) : StoreState → List DData → StoreState × WriteStats
  | st, [] => (st, ⟨0, 0, 0⟩)
  | st, d :: ds =>
      let step := writeOne now st d
      let rest := writeMany now step.1 ds
      (rest.1, bumpStats step.2 rest.2)

/-- Slicing loop `xs[i:i + n]`: split a list into consecutive slices of at
most `n` elements (`range(0, len(xs), n)`), as done both by
`write_batch_discounts` (line 44) and by the chunking in `tasks.py`. -/
def chunksOf (n : Nat) (l : List α) : List (List α) :=
  if _h : n = 0 ∨ l.isEmpty then []
  else l.take n :: chunksOf n (l.drop n)
termination_by l.length
decreasing_by
  rcases l with _ | ⟨x, xs⟩
  · simp_all
  · have hn : n ≠ 0 := by
      intro h
      exact _h (Or.inl h)
    simp [List.length_drop]
    omega

/-- The chunk loop of `write_batch_discounts`: slices of `batch_size`
processed in order, statistics accumulated across slices. -/
def writeChunks (now : Int) : List (List DData) → StoreState → StoreState × WriteStats
  | [], st => (st, ⟨0, 0, 0⟩)
  | c :: cs, st =>
      let step := writeMany now st c
      let rest := writeChunks now cs step.1
      (rest.1, step.2 + rest.2)

/-- Method `BatchDiscountService.write_batch_discounts` (lines 22-97). -/
def writeBatchDiscounts (now : Int) (st : StoreState) (data : List DData)
    (batch_size : Nat) : StoreState × WriteStats :=
  writeChunks now (chunksOf batch_size data) st

/-- Method `DiscountService.apply_discount_to_batch` (discount_service.py lines
72-106) restricted to its store write: after computing the decision it
unconditionally `create`s a new row with `validTo = valid_until`, without
looking for an existing active record. -/
def applyDiscountToBatch (st : StoreState) (batch_id : Int)
    (computed_price discount_pct : ℚ) (valid_until : Option Int) (ml : Bool) :
    StoreState :=
  ⟨st.records ++
      [{ id := st.nextId
         batchId := batch_id
         computedPrice := computed_price
         discountPct := discount_pct
         validFrom := none
         validTo := valid_until
         expiresAt := none
         mlRecommended := ml }],
    st.nextId + 1⟩

/-- Number of rows for `batchId` with `valid_to = null` — the records the
spec calls "active" in the at-most-one-active invariant. -/
def activeNullCount (st : StoreState) (batchId : Int) : Nat :=
  st.records.countP (fun r => r.batchId == batchId && r.validTo.isNone)

/-- Store well-formedness: row ids are pairwise distinct and below the
auto-increment counter, as database primary keys are. -/
def WF (st : StoreState) : Prop :=
  st.records.Pairwise (fun a b => a.id ≠ b.id) ∧ ∀ r ∈ st.records, r.id < st.nextId

/-- The product joined onto a fetched batch (`include={"product": True}`). -/
structure Product where
  basePrice : ℚ
  category : Option String
deriving Repr, DecidableEq

/-- A fetched inventory batch as `_recompute_discounts_async` consumes it:
`daysToExpiry` stands for `(batch.expiryDate.date() - date.today()).days`
and `expiresAt` for the raw `batch.expiryDate` passed into the discount
data.  The joined product may be missing. -/
structure Batch where
  id : Int
  product : Option Product
  quantity : Int
  daysToExpiry : Int
  expiresAt : Option Int
deriving Repr, DecidableEq

/-- Output of the per-chunk computation loop: the `discount_data` list in
order, plus the `total_processed` and `errors` contributions. -/
structure ChunkComp where
  data : List DData
  processed : Nat
  errors : Nat
deriving Repr, DecidableEq

/-- The per-item loop of `_recompute_discounts_async` (tasks.py lines
97-129).  A batch without a product is skipped silently; otherwise the
price computation runs inside `try`, so a per-item failure — modelled by
the oracle returning `.error` — increments `errors` and the loop moves on
to the remaining items. -/
def processItems (computeF : Batch → Product → Except String DData) :
    List Batch → ChunkComp
  | [] => ⟨[], 0, 0⟩
  | b :: bs =>
      let rest := processItems computeF bs
      match b.product with
      | none => rest
      | some pr =>
          match computeF b pr with
          | .ok d => ⟨d :: rest.data, rest.processed + 1, rest.errors⟩
          | .error _ => ⟨rest.data, rest.processed, rest.errors + 1⟩

/-- The successful computation the pipeline actually performs for a batch
with a product (tasks.py lines 109-123): `compute_batch_price` on the
product's base price and category, packaged as discount data. -/
def pureComputeF (eng : DiscountEngine) (b : Batch) (pr : Product) :
    Except String DData :=
  let res := computeBatchPrice eng pr.basePrice b.daysToExpiry b.quantity pr.category none
  .ok { batch_id := b.id
        computed_price := res.1
        discount_pct := res.2.1
        expires_at := b.expiresAt
        ml_recommended := false }

/-- The statistics dict built by `_recompute_discounts_async`
(tasks.py lines 83-88). -/
structure RunStats where
  total_processed : Nat
  discounts_written : Nat
  errors : Nat
  chunks_processed : Nat
deriving Repr, DecidableEq

/-- The literal key/value pairs of the returned statistics dictionary. -/
def statsDict (s : RunStats) : List (String × Nat) :=
  [("total_processed", s.total_processed),
   ("discounts_written", s.discounts_written),
   ("errors", s.errors),
   ("chunks_processed", s.chunks_processed)]

/-- The chunk loop of `_recompute_discounts_async` (tasks.py lines 93-144):
per chunk, run the computation loop, then — only when some discount data
was produced — `write_batch_discounts` with `batch_size=50`, folding the
write statistics into the run statistics. -/
def runChunks (computeF : Batch → Product → Except String DData) (now : Int) :
    List (List Batch) → StoreState → StoreState × RunStats
  | [], st => (st, ⟨0, 0, 0, 0⟩)
  | c :: cs, st =>
      let comp := processItems computeF c
      let wr :=
        if comp.data.isEmpty then (st, (⟨0, 0, 0⟩ : WriteStats))
        else writeBatchDiscounts now st comp.data 50
      let inc : Nat := if comp.data.isEmpty then 0 else 1
      let rest := runChunks computeF now cs wr.1
      (rest.1,
       ⟨comp.processed + rest.2.total_processed,
        wr.2.created + wr.2.updated + rest.2.discounts_written,
        comp.errors + wr.2.errors + rest.2.errors,
        inc + rest.2.chunks_processed⟩)

/-- Pipeline `_recompute_discounts_async` (tasks.py lines 57-146) after the bulk
fetch: the fetched batches are sliced into chunks of `chunk_size` and
processed in order against the store. -/
def recomputeDiscounts (eng : DiscountEngine) (now : Int) (chunk_size : Nat)
    (batches : List Batch) (st : StoreState) : StoreState × RunStats :=
  runChunks (pureComputeF eng) now (chunksOf chunk_size batches) st

/-- The discount data the pipeline computes for a batch list: the
`discount_data` produced by the per-item loop with the engine's price
computation. -/
def pipeData (eng : DiscountEngine) (batches : List Batch) : List DData :=
  (processItems (pureComputeF eng) batches).data

/-- A store state is settled for a decision when the active record the
write loop would find is already within one cent of the decision's price,
so persisting the decision is a no-op. -/
def settled (now : Int) (st : StoreState) (d : DData) : Prop :=
  ∃ r, findActive now st.records d.batch_id = some r ∧
    |r.computedPrice - d.computed_price| ≤ 1 / 100

/-- Modelled from the spec: "Round `computed_price` to currency precision
(2 decimal places, half-up)".  A rational is at currency precision exactly
when it is a whole number of cents. -/
def isCurrencyRounded (q : ℚ) : Prop :=
  ∃ n : ℤ, q = n / 100

/-- The inner loop of `write_batch_discounts` with the store operations of
one item abstracted as a fallible oracle (the body runs inside
`try`/`except`): a failing item leaves the store untouched — each item
performs at most one mutating call — increments `errors`, and the loop
continues with the remaining items. -/
def writeManyF (F : StoreState → DData → Except String (StoreState × WriteAction)) :
    StoreState → List DData → StoreState × WriteStats
  | st, [] => (st, ⟨0, 0, 0⟩)
  | st, d :: ds =>
      match F st d with
      | .ok sa =>
          let rest := writeManyF F sa.1 ds
          (rest.1, bumpStats sa.2 rest.2)
      | .error _ =>
          let rest := writeManyF F st ds
          (rest.1, { rest.2 with errors := rest.2.errors + 1 })

/-- A concrete fleet of 1000 distinct batches, each with a product, used
to instantiate the partitioning properties at the scale of Scenario D. -/
def thousandBatches : List Batch :=
  (List.range 1000).map (fun i => ⟨Int.ofNat i, some ⟨100, none⟩, 1, 5, none⟩)

/-- C2: for every batch input with `days_to_expiry < 0`, the price
computation returns `computed_price = base_price * (1 - expired_max_discount)`,
`discount_fraction = expired_max_discount` and `reason = "expired"`,
without consulting the rule set — the result is the same for every engine
sharing the defaults, whatever its rules and category overrides. -/
theorem c2_expired_path_bypasses_rules (eng eng2 : DiscountEngine) (base_price : ℚ)
    (days qty : Int) (category : Option String) (min_price : Option ℚ)
    (hdef : eng2.defaults = eng.defaults) (h : days < 0) :
    computeBatchPrice eng2 base_price days qty category min_price =
      (base_price * (1 - eng.defaults.max_discount.getD (80 / 100)),
       eng.defaults.max_discount.getD (80 / 100), "expired") := by
  unfold computeBatchPrice
  rw [if_pos h, hdef]

/-- Witness for C2: an expired batch (`days_to_expiry = -3`) with
`expired_max_discount = 0.80` yields `base_price * 0.20`, even though the
engine carries a rule; the rule set is bypassed. -/
theorem c2_expired_path_bypasses_rules_witness :
    computeBatchPrice
        ⟨[⟨"r", ⟨none, none⟩, 1 / 2, 1⟩], ⟨none, some (80 / 100), none⟩, []⟩
        100 (-3) 50 none none
      = (100 * (1 - (80 : ℚ) / 100), (80 : ℚ) / 100, "expired")
    ∧ (100 : ℚ) * (1 - (80 : ℚ) / 100) = 100 * (20 / 100) := by
  constructor
  · simpa using
      c2_expired_path_bypasses_rules
        ⟨[], ⟨none, some (80 / 100), none⟩, []⟩
        ⟨[⟨"r", ⟨none, none⟩, 1 / 2, 1⟩], ⟨none, some (80 / 100), none⟩, []⟩
        100 (-3) 50 none none rfl (by decide)
  · norm_num

/-- C10: a comparator dictionary carrying none of the keys `lte`, `gte`,
`gt`, `lt` is satisfied by every integer; a rule whose two condition
entries are both such dictionaries matches every `(days_to_expiry,
quantity)` pair; and rule construction passes the condition through
unchanged — no comparator-name validation happens at load or evaluation
time. -/
theorem c10_unknown_comparators_ignored (v : Int) (nm : String) (disc : ℚ)
    (prio : Option Int) (x y : Int) :
    entryOK (.range none none none none) v = true
    ∧ (loadRule ⟨nm, ⟨some (.range none none none none),
          some (.range none none none none)⟩, disc, prio⟩).condition
        = ⟨some (.range none none none none), some (.range none none none none)⟩
    ∧ DiscountRule.evaluate
        (loadRule ⟨nm, ⟨some (.range none none none none),
          some (.range none none none none)⟩, disc, prio⟩) x y = true :=
  ⟨rfl, rfl, rfl⟩

/-- Counterexample to C3: an engine with one general rule and a category
override carrying an empty rule list.  The claim says the applicable list
for that category is the override rules followed by the general rules,
i.e. `[] ++ general = general`; the code returns the override rules alone,
the empty list. -/
theorem c3_counterexample :
    getRulesForCategory
        ⟨[⟨"all", ⟨none, none⟩, 1 / 2, 1⟩], ⟨none, none, none⟩,
          [("x", ⟨none, some []⟩)]⟩ (some "x")
      ≠ sortRules (([] : List RuleData).map loadRule)
          ++ [⟨"all", ⟨none, none⟩, 1 / 2, 1⟩] := by
  decide

/-- C3 amended: when a category has an override with a `rules` key, the
applicable list is exactly the override's rules (sorted by priority) — the
general rules are not appended as fallback; a category without an override
entry, or no category, uses exactly the general rules; and the first rule
of the applicable list whose conditions are all satisfied is the one
resolved (its name is the returned reason). -/
theorem c3_category_rules_replace_general (eng : DiscountEngine) (c : String)
    (ov : CategoryOverride) (rds : List RuleData) (days qty : Int)
    (r : DiscountRule) (base : ℚ) (minp : Option ℚ)
    (hc : ¬ c = "") (hov : eng.category_overrides.lookup c = some ov)
    (hrs : ov.rules = some rds) (hd : 0 ≤ days)
    (hfind : (sortRules (rds.map loadRule)).find?
        (fun r2 => r2.evaluate days qty) = some r) :
    getRulesForCategory eng (some c) = sortRules (rds.map loadRule)
    ∧ (∀ c2 : String, eng.category_overrides.lookup c2 = none →
        getRulesForCategory eng (some c2) = eng.rules)
    ∧ getRulesForCategory eng none = eng.rules
    ∧ (computeBatchPrice eng base days qty (some c) minp).2.2 = r.name := by
  have h1 : getRulesForCategory eng (some c) = sortRules (rds.map loadRule) := by
    simp [getRulesForCategory, hc, hov, hrs]
  refine ⟨h1, ?_, rfl, ?_⟩
  · intro c2 h2
    by_cases hc2 : c2 = "" <;> simp [getRulesForCategory, hc2, h2]
  · unfold computeBatchPrice
    rw [if_neg (not_lt.2 hd)]
    simp only [h1, hfind]

/-- Witness for C3 amended: a category whose override carries one
match-all rule; that rule alone is applicable and its name is the reason. -/
theorem c3_category_rules_replace_general_witness :
    getRulesForCategory
        ⟨[⟨"gen", ⟨none, none⟩, 1 / 2, 1⟩], ⟨none, none, none⟩,
          [("x", ⟨none, some [⟨"cat", ⟨none, none⟩, 1 / 4, some 1⟩]⟩)]⟩ (some "x")
      = sortRules ([⟨"cat", ⟨none, none⟩, 1 / 4, some 1⟩].map loadRule)
    ∧ (computeBatchPrice
        ⟨[⟨"gen", ⟨none, none⟩, 1 / 2, 1⟩], ⟨none, none, none⟩,
          [("x", ⟨none, some [⟨"cat", ⟨none, none⟩, 1 / 4, some 1⟩]⟩)]⟩
        100 5 50 (some "x") none).2.2 = "cat" := by
  have h :=
    c3_category_rules_replace_general
      ⟨[⟨"gen", ⟨none, none⟩, 1 / 2, 1⟩], ⟨none, none, none⟩,
        [("x", ⟨none, some [⟨"cat", ⟨none, none⟩, 1 / 4, some 1⟩]⟩)]⟩
      "x" ⟨none, some [⟨"cat", ⟨none, none⟩, 1 / 4, some 1⟩]⟩
      [⟨"cat", ⟨none, none⟩, 1 / 4, some 1⟩] 5 50
      (loadRule ⟨"cat", ⟨none, none⟩, 1 / 4, some 1⟩) 100 none
      (by decide) rfl rfl (by decide) rfl
  exact ⟨h.1, h.2.2.2⟩

/-- Counterexample to C4: with a configured global price floor fraction of
0.5 and `expired_max_discount = 0.8`, an expired batch is priced at
`base_price * 0.2`, strictly below `base_price * floor_fraction` — the
expired path bypasses the floor, so the claim fails for negative
`days_to_expiry`. -/
theorem c4_counterexample :
    (computeBatchPrice ⟨[], ⟨none, some (4 / 5), some (1 / 2)⟩, []⟩
        100 (-1) 0 none none).1
      < 100 * getPriceFloorMultiplier ⟨[], ⟨none, some (4 / 5), some (1 / 2)⟩, []⟩ none := by
  norm_num [computeBatchPrice, getPriceFloorMultiplier]

/-- C4 amended: for every engine and every input with `days_to_expiry >= 0`
and no min-price override, the computed price is at least
`base_price * floor_fraction(category)`; the expired path (negative days)
bypasses the floor. -/
theorem c4_floor_holds_for_unexpired (eng : DiscountEngine) (base : ℚ)
    (days qty : Int) (category : Option String) (hd : 0 ≤ days) :
    base * getPriceFloorMultiplier eng category
      ≤ (computeBatchPrice eng base days qty category none).1 := by
  unfold computeBatchPrice
  rw [if_neg (not_lt.2 hd)]
  exact le_max_right _ _

/-- Witness for C4 amended: a non-expired batch with no matching rule is
priced at the base price, above the default floor of 20%. -/
theorem c4_floor_holds_for_unexpired_witness :
    (100 : ℚ) * getPriceFloorMultiplier ⟨[], ⟨none, none, none⟩, []⟩ none
      ≤ (computeBatchPrice ⟨[], ⟨none, none, none⟩, []⟩ 100 5 50 none none).1 :=
  c4_floor_holds_for_unexpired ⟨[], ⟨none, none, none⟩, []⟩ 100 5 50 none (by decide)

/-- Counterexample to C9: a matching rule with discount 1/3 on a base
price of 100 produces a computed price of 200/3, which is not a whole
number of cents — `compute_batch_price` performs no currency rounding. -/
theorem c9_counterexample :
    ¬ isCurrencyRounded
      (computeBatchPrice ⟨[⟨"third", ⟨none, none⟩, 1 / 3, 1⟩],
          ⟨none, none, none⟩, []⟩ 100 5 50 none none).1 := by
  have hp : (computeBatchPrice ⟨[⟨"third", ⟨none, none⟩, 1 / 3, 1⟩],
      ⟨none, none, none⟩, []⟩ 100 5 50 none none).1 = 200 / 3 := by
    norm_num [computeBatchPrice, getRulesForCategory, clampDiscount,
      getPriceFloorMultiplier, List.find?, DiscountRule.evaluate]
  rw [hp, isCurrencyRounded]
  rintro ⟨n, hn⟩
  have h3 : (20000 : ℚ) = 3 * n := by
    field_simp at hn
    linarith
  have h4 : (20000 : ℤ) = 3 * n := by exact_mod_cast h3
  omega

/-- C9 amended: the computation returns exact, unrounded values: for every
input with a nonzero base price the returned discount fraction equals
exactly `(base_price - computed_price) / base_price`, with no rounding
applied to either component. -/
theorem c9_exact_unrounded_consistency (eng : DiscountEngine) (base : ℚ)
    (days qty : Int) (category : Option String) (minp : Option ℚ)
    (hb : base ≠ 0) :
    (computeBatchPrice eng base days qty category minp).2.1
      = (base - (computeBatchPrice eng base days qty category minp).1) / base := by
  unfold computeBatchPrice
  by_cases h : days < 0
  · rw [if_pos h]
    field_simp
    ring
  · rw [if_neg h]

/-- Witness for C9 amended: concrete consistency of the returned fraction
at base price 100. -/
theorem c9_exact_unrounded_consistency_witness :
    (computeBatchPrice ⟨[⟨"third", ⟨none, none⟩, 1 / 3, 1⟩],
          ⟨none, none, none⟩, []⟩ 100 5 50 none none).2.1
      = (100 - (computeBatchPrice ⟨[⟨"third", ⟨none, none⟩, 1 / 3, 1⟩],
          ⟨none, none, none⟩, []⟩ 100 5 50 none none).1) / 100 :=
  c9_exact_unrounded_consistency
    ⟨[⟨"third", ⟨none, none⟩, 1 / 3, 1⟩], ⟨none, none, none⟩, []⟩
    100 5 50 none none (by norm_num)

/-- C5: when an active record exists for the batch and the freshly computed
price is within one cent of the stored price, persisting the decision
writes nothing: the store is returned unchanged (stored price and fraction
exactly as before) and the action is UNCHANGED. -/
theorem c5_within_tolerance_no_write (now : Int) (st : StoreState) (d : DData)
    (ex : DiscountRecord)
    (hfind : findActive now st.records d.batch_id = some ex)
    (htol : |ex.computedPrice - d.computed_price| ≤ 1 / 100) :
    writeOne now st d = (st, .unchanged) := by
  have h2 : ¬ (1 / 100 < |ex.computedPrice - d.computed_price|) := not_lt.2 htol
  unfold writeOne
  rw [hfind]
  simp [h2]
  simpa using htol

/-- Witness for C5: a stored price of 40.00 and a recomputation of 40.004
(sub-cent drift) leave the store exactly unchanged. -/
theorem c5_within_tolerance_no_write_witness :
    writeOne 0 ⟨[⟨0, 1, 40, 3 / 5, some 0, none, none, false⟩], 1⟩
        ⟨1, 40004 / 1000, 3 / 5, none, false⟩
      = (⟨[⟨0, 1, 40, 3 / 5, some 0, none, none, false⟩], 1⟩, .unchanged) :=
  c5_within_tolerance_no_write 0 _ _
    ⟨0, 1, 40, 3 / 5, some 0, none, none, false⟩ rfl
    (abs_le.mpr ⟨by norm_num, by norm_num⟩)

/-- Updating records in place never changes which rows count as active
for a batch, nor row membership: one write step keeps the number of
null-`valid_to` rows of every batch at most one. -/
theorem activeNull_writeOne (now : Int) (st : StoreState) (d : DData) (b : Int)
    (h : activeNullCount st b ≤ 1) :
    activeNullCount (writeOne now st d).1 b ≤ 1 := by
  unfold writeOne
  cases hf : findActive now st.records d.batch_id with
  | some ex =>
      by_cases hlt : 1 / 100 < |ex.computedPrice - d.computed_price|
      · simp only [if_pos hlt]
        unfold activeNullCount at h ⊢
        simp only [List.countP_map]
        rw [List.countP_congr]
        · exact h
        · intro r _
          by_cases hid : (r.id == ex.id) = true <;>
            simp [Function.comp, hid]
      · simp only [if_neg hlt]
        exact h
  | none =>
      unfold activeNullCount at h ⊢
      rw [List.countP_append]
      unfold findActive at hf
      rw [List.find?_eq_none] at hf
      by_cases hbb : (d.batch_id == b) = true
      · have hz : st.records.countP
            (fun r => r.batchId == b && r.validTo.isNone) = 0 := by
          rw [List.countP_eq_zero]
          intro r hr hp
          refine hf r hr ?_
          simp only [Bool.and_eq_true, beq_iff_eq] at hp ⊢
          have hb2 : d.batch_id = b := beq_iff_eq.mp hbb
          refine ⟨by rw [hp.1, hb2], ?_⟩
          unfold activeB
          rcases hvt : r.validTo with _ | t
          · rfl
          · rw [hvt] at hp
            simp at hp
        rw [hz]
        simp [hbb]
      · simpa [List.countP_cons, hbb] using h

/-- The sequential write loop preserves the at-most-one-active bound. -/
theorem activeNull_writeMany (now : Int) (ds : List DData) (st : StoreState) (b : Int)
    (h : activeNullCount st b ≤ 1) :
    activeNullCount (writeMany now st ds).1 b ≤ 1 := by
  induction ds generalizing st with
  | nil => simpa [writeMany] using h
  | cons d ds ih =>
      simp only [writeMany]
      exact ih _ (activeNull_writeOne now st d b h)

/-- The chunked write loop preserves the at-most-one-active bound. -/
theorem activeNull_writeChunks (now : Int) (cs : List (List DData)) (st : StoreState)
    (b : Int) (h : activeNullCount st b ≤ 1) :
    activeNullCount (writeChunks now cs st).1 b ≤ 1 := by
  induction cs generalizing st with
  | nil => simpa [writeChunks] using h
  | cons c cs ih =>
      simp only [writeChunks]
      exact ih _ (activeNull_writeMany now c st b h)

/-- Counterexample to C1: `apply_discount_to_batch` is a discount-writing
operation of the service, but it creates unconditionally — two calls for
the same batch on an initially empty store leave two records with
`valid_to = null`, violating the at-most-one-active invariant. -/
theorem c1_counterexample :
    activeNullCount
      (applyDiscountToBatch
        (applyDiscountToBatch ⟨[], 0⟩ 1 40 (1 / 2) none false)
        1 40 (1 / 2) none false) 1 = 2 := by
  decide

/-- C1 amended: `write_batch_discounts` (create when no active record,
update in place when the price moved, no-op otherwise) preserves the
at-most-one-active invariant for every batch over any sequence of writes;
`apply_discount_to_batch`, by contrast, creates unconditionally and can
violate it. -/
theorem c1_write_preserves_at_most_one_active (now : Int) (st : StoreState)
    (data : List DData) (batch_size : Nat) (b : Int)
    (h : activeNullCount st b ≤ 1) :
    activeNullCount (writeBatchDiscounts now st data batch_size).1 b ≤ 1 := by
  unfold writeBatchDiscounts
  exact activeNull_writeChunks now _ st b h

/-- Witness for C1 amended: a write of one decision against the empty
store leaves at most one active record for the batch. -/
theorem c1_write_preserves_at_most_one_active_witness :
    activeNullCount
      (writeBatchDiscounts 0 ⟨[], 0⟩ [⟨1, 40, 1 / 2, none, false⟩] 100).1 1 ≤ 1 :=
  c1_write_preserves_at_most_one_active 0 ⟨[], 0⟩ [⟨1, 40, 1 / 2, none, false⟩]
    100 1 (by decide)

/-- Unfolding: chunking the empty list yields no chunks. -/
theorem chunksOf_nil {α : Type} (n : Nat) : chunksOf n ([] : List α) = [] := by
  rw [chunksOf]
  simp

/-- Unfolding: chunking a nonempty list with a positive size takes one
slice and recurses on the rest. -/
theorem chunksOf_eq_cons {α : Type} (n : Nat) (x : α) (xs : List α) (hn : 1 ≤ n) :
    chunksOf n (x :: xs) = (x :: xs).take n :: chunksOf n ((x :: xs).drop n) := by
  rw [chunksOf]
  rw [dif_neg]
  simp
  omega

/-- Concatenating the chunks in order restores the input list. -/
theorem chunksOf_flatten {α : Type} (n : Nat) (hn : 1 ≤ n) (l : List α) :
    (chunksOf n l).flatten = l := by
  have H : ∀ len : Nat, ∀ l2 : List α, l2.length = len →
      (chunksOf n l2).flatten = l2 := by
    intro len
    induction len using Nat.strong_induction_on with
    | _ len ih =>
      intro l2 hL
      rcases l2 with _ | ⟨x, xs⟩
      · rw [chunksOf_nil]
        rfl
      · rw [chunksOf_eq_cons n x xs hn, List.flatten_cons]
        have hlt : ((x :: xs).drop n).length < len := by
          subst hL
          simp [List.length_drop]
          omega
        rw [ih _ hlt _ rfl]
        exact List.take_append_drop n (x :: xs)
  exact H l.length l rfl

/-- Every produced chunk holds at most `chunk_size` elements. -/
theorem chunksOf_sizes {α : Type} (n : Nat) (hn : 1 ≤ n) (l : List α) :
    ∀ c ∈ chunksOf n l, c.length ≤ n := by
  have H : ∀ len : Nat, ∀ l2 : List α, l2.length = len →
      ∀ c ∈ chunksOf n l2, c.length ≤ n := by
    intro len
    induction len using Nat.strong_induction_on with
    | _ len ih =>
      intro l2 hL c hc
      rcases l2 with _ | ⟨x, xs⟩
      · rw [chunksOf_nil] at hc
        simp at hc
      · rw [chunksOf_eq_cons n x xs hn] at hc
        have hlt : ((x :: xs).drop n).length < len := by
          subst hL
          simp [List.length_drop]
          omega
        rcases List.mem_cons.mp hc with hc | hc
        · subst hc
          rw [List.length_take]
          exact min_le_left _ _
        · exact ih _ hlt _ rfl c hc
  exact H l.length l rfl

/-- Number of chunks: the ceiling of `length / chunk_size`. -/
theorem chunksOf_count {α : Type} (n : Nat) (hn : 1 ≤ n) (l : List α) :
    (chunksOf n l).length = (l.length + n - 1) / n := by
  have H : ∀ len : Nat, ∀ l2 : List α, l2.length = len →
      (chunksOf n l2).length = (l2.length + n - 1) / n := by
    intro len
    induction len using Nat.strong_induction_on with
    | _ len ih =>
      intro l2 hL
      rcases l2 with _ | ⟨x, xs⟩
      · rw [chunksOf_nil]
        simp
        exact (Nat.div_eq_of_lt (by omega)).symm
      · rw [chunksOf_eq_cons n x xs hn, List.length_cons]
        have hlt : ((x :: xs).drop n).length < len := by
          subst hL
          simp [List.length_drop]
          omega
        rw [ih _ hlt _ rfl]
        simp only [List.length_drop, List.length_cons]
        by_cases h2 : n ≤ xs.length + 1
        · have e1 : xs.length + 1 - n + n - 1 = xs.length := by omega
          have e2 : xs.length + 1 + n - 1 = xs.length + n := by omega
          rw [e1, e2, Nat.add_div_right _ (by omega)]
        · have e1 : xs.length + 1 - n = 0 := by omega
          rw [e1]
          rw [Nat.div_eq_of_lt (by omega)]
          exact (Nat.div_eq_of_lt_le (by omega) (by omega)).symm
  exact H l.length l rfl

/-- The per-item loop distributes over list concatenation: discount data
concatenates, processed and error counts add. -/
theorem processItems_append (F : Batch → Product → Except String DData)
    (l1 l2 : List Batch) :
    processItems F (l1 ++ l2) =
      ⟨(processItems F l1).data ++ (processItems F l2).data,
       (processItems F l1).processed + (processItems F l2).processed,
       (processItems F l1).errors + (processItems F l2).errors⟩ := by
  induction l1 with
  | nil => simp [processItems]
  | cons b bs ih =>
      rw [List.cons_append]
      cases hb : b.product with
      | none =>
          simp only [processItems, hb, List.append_eq]
          rw [ih]
      | some pr =>
          cases hF : F b pr with
          | ok d =>
              simp only [processItems, hb, hF, List.append_eq]
              rw [ih]
              simp only [ChunkComp.mk.injEq, List.cons_append]
              refine ⟨trivial, ?_, trivial⟩
              omega
          | error e =>
              simp only [processItems, hb, hF, List.append_eq]
              rw [ih]
              simp only [ChunkComp.mk.injEq]
              refine ⟨trivial, trivial, ?_⟩
              omega

/-- With the engine's pure computation every batch carrying a product is
processed successfully: the processed count is the number of batches with
a product. -/
theorem processItems_pure_processed (eng : DiscountEngine) (l : List Batch) :
    (processItems (pureComputeF eng) l).processed
      = l.countP (fun b => b.product.isSome) := by
  induction l with
  | nil => simp [processItems]
  | cons b bs ih =>
      cases hb : b.product with
      | none => simp [processItems, hb, List.countP_cons, ih]
      | some pr => simp [processItems, hb, pureComputeF, List.countP_cons, ih]

/-- The run's `total_processed` is the sum of the per-chunk processed
counts, independently of the store threading. -/
theorem runChunks_total (F : Batch → Product → Except String DData) (now : Int)
    (cs : List (List Batch)) (st : StoreState) :
    (runChunks F now cs st).2.total_processed
      = ((cs.map (fun c => (processItems F c).processed)).sum) := by
  induction cs generalizing st with
  | nil => simp [runChunks]
  | cons c cs ih =>
      simp only [runChunks, List.map_cons, List.sum_cons]
      rw [ih]

/-- C7: chunking partitions the fetched batch list: the chunks concatenate
back to the input in order, every chunk has at most `chunk_size` elements,
chunk batch-id sets are pairwise disjoint when batch ids are distinct, the
number of chunks is the ceiling of `length / chunk_size`, and the
pipeline's `total_processed` counts every fetched batch that has a
product. -/
theorem c7_chunk_partitioning (n : Nat) (batches : List Batch)
    (eng : DiscountEngine) (now : Int) (st : StoreState)
    (hn : 1 ≤ n) (hnodup : (batches.map Batch.id).Nodup) :
    (chunksOf n batches).flatten = batches
    ∧ (∀ c ∈ chunksOf n batches, c.length ≤ n)
    ∧ List.Pairwise List.Disjoint ((chunksOf n batches).map (List.map Batch.id))
    ∧ (chunksOf n batches).length = (batches.length + n - 1) / n
    ∧ (recomputeDiscounts eng now n batches st).2.total_processed
        = batches.countP (fun b => b.product.isSome) := by
  refine ⟨chunksOf_flatten n hn batches, chunksOf_sizes n hn batches, ?_,
    chunksOf_count n hn batches, ?_⟩
  · have h2 : ((chunksOf n batches).map (List.map Batch.id)).flatten.Nodup := by
      rw [← List.map_flatten, chunksOf_flatten n hn]
      exact hnodup
    exact (List.nodup_flatten.mp h2).2
  · unfold recomputeDiscounts
    rw [runChunks_total]
    rw [List.map_congr_left
      (fun c _ => processItems_pure_processed eng c)]
    rw [← List.countP_flatten, chunksOf_flatten n hn]

/-- Witness for C7, Scenario D: 1000 batches with `chunk_size = 100` yield
exactly 10 chunks that concatenate back to the input, and
`total_processed = 1000`. -/
theorem c7_chunk_partitioning_witness :
    (chunksOf 100 thousandBatches).length = 10
    ∧ (recomputeDiscounts ⟨[], ⟨none, none, none⟩, []⟩ 0 100 thousandBatches
        ⟨[], 0⟩).2.total_processed = 1000
    ∧ (chunksOf 100 thousandBatches).flatten = thousandBatches := by
  have hnodup : (thousandBatches.map Batch.id).Nodup := by
    have e : thousandBatches.map Batch.id
        = List.map (fun i : Nat => Int.ofNat i) (List.range 1000) := by
      unfold thousandBatches
      rw [List.map_map]
      rfl
    rw [e]
    refine (List.nodup_range 1000).map ?_
    intro a b h2
    exact Int.ofNat.inj h2
  have h := c7_chunk_partitioning 100 thousandBatches ⟨[], ⟨none, none, none⟩, []⟩
    0 ⟨[], 0⟩ (by norm_num) hnodup
  have hlen : thousandBatches.length = 1000 := by
    unfold thousandBatches
    rw [List.length_map, List.length_range]
  refine ⟨?_, ?_, h.1⟩
  · rw [h.2.2.2.1, hlen]
  · rw [h.2.2.2.2]
    unfold thousandBatches
    rw [List.countP_map]
    rw [show ((fun b => b.product.isSome) ∘
        (fun i : Nat => (⟨Int.ofNat i, some ⟨100, none⟩, 1, 5, none⟩ : Batch)))
      = (fun _ => true) from rfl]
    rw [List.countP_true, List.length_range]

/-- C8: a failure while handling one item never escapes its chunk.  In the
computation loop, an item whose price computation fails contributes
exactly one to the error count while every other item of the chunk is
still processed; in the write loop, an item whose store operation fails
leaves the store untouched, adds one error, and the remaining items are
still written. -/
theorem c8_per_item_failure_contained
    (F : Batch → Product → Except String DData)
    (G : StoreState → DData → Except String (StoreState × WriteAction))
    (l1 l2 : List Batch) (b : Batch) (pr : Product) (msg : String)
    (st : StoreState) (d : DData) (ds : List DData) (msg2 : String)
    (hpr : b.product = some pr) (herr : F b pr = .error msg)
    (hw : G st d = .error msg2) :
    processItems F (l1 ++ b :: l2) =
      ⟨(processItems F l1).data ++ (processItems F l2).data,
       (processItems F l1).processed + (processItems F l2).processed,
       (processItems F l1).errors + (processItems F l2).errors + 1⟩
    ∧ writeManyF G st (d :: ds) =
        ((writeManyF G st ds).1,
         { (writeManyF G st ds).2 with
             errors := (writeManyF G st ds).2.errors + 1 }) := by
  constructor
  · rw [processItems_append]
    simp only [processItems, hpr, herr, ChunkComp.mk.injEq]
    refine ⟨trivial, trivial, ?_⟩
    omega
  · simp only [writeManyF, hw]

/-- Witness for C8: with an always-failing computation and an
always-failing store operation, a two-item chunk records two computation
errors, and a one-item write loop records one error while leaving the
store unchanged. -/
theorem c8_per_item_failure_contained_witness :
    processItems (fun _ _ => .error "boom")
        ([⟨1, some ⟨100, none⟩, 1, 5, none⟩] ++
          ⟨2, some ⟨100, none⟩, 1, 5, none⟩ :: [])
      = ⟨[], 0, 2⟩
    ∧ writeManyF (fun _ _ => .error "crash") ⟨[], 0⟩
        (⟨1, 40, 1 / 2, none, false⟩ :: [])
      = (⟨[], 0⟩, ⟨0, 0, 1⟩) := by
  have h := c8_per_item_failure_contained
    (fun _ _ => .error "boom") (fun _ _ => .error "crash")
    [⟨1, some ⟨100, none⟩, 1, 5, none⟩] []
    ⟨2, some ⟨100, none⟩, 1, 5, none⟩ ⟨100, none⟩ "boom"
    ⟨[], 0⟩ ⟨1, 40, 1 / 2, none, false⟩ [] "crash"
    rfl rfl rfl
  constructor
  · rw [h.1]
    rfl
  · rw [h.2]
    rfl

/-- Mapping a function that does not change the predicate's verdict
commutes with `find?`. -/
theorem find?_map_pred {α : Type} (g : α → α) (p : α → Bool) (l : List α)
    (h : ∀ x ∈ l, p (g x) = p x) :
    (l.map g).find? p = Option.map g (l.find? p) := by
  induction l with
  | nil => rfl
  | cons x xs ih =>
      simp only [List.map_cons, List.find?_cons]
      rw [h x (List.mem_cons_self x xs)]
      cases hp : p x with
      | true => rfl
      | false => exact ih (fun y hy => h y (List.mem_cons_of_mem x hy))

/-- A successful `find?` survives appending rows on the right. -/
theorem find?_append_some {α : Type} (p : α → Bool) (l1 l2 : List α) (r : α)
    (h : l1.find? p = some r) : (l1 ++ l2).find? p = some r := by
  rw [List.find?_append, h]
  rfl

/-- Equation: no active record found means a fresh row is created. -/
theorem writeOne_create (now : Int) (st : StoreState) (d : DData)
    (hf : findActive now st.records d.batch_id = none) :
    writeOne now st d =
      (⟨st.records ++
          [⟨st.nextId, d.batch_id, d.computed_price, d.discount_pct,
            some now, none, d.expires_at, d.ml_recommended⟩],
        st.nextId + 1⟩, .created) := by
  unfold writeOne
  rw [hf]

/-- Equation: an active record further than one cent away is updated in
place. -/
theorem writeOne_update (now : Int) (st : StoreState) (d : DData)
    (ex : DiscountRecord)
    (hf : findActive now st.records d.batch_id = some ex)
    (hlt : 1 / 100 < |ex.computedPrice - d.computed_price|) :
    writeOne now st d =
      (⟨st.records.map (fun r =>
          if r.id == ex.id then
            { r with computedPrice := d.computed_price
                     discountPct := d.discount_pct
                     expiresAt := d.expires_at }
          else r),
        st.nextId⟩, .updated) := by
  unfold writeOne
  rw [hf]
  simp only [if_pos hlt]

/-- Equation: an active record within one cent is left untouched. -/
theorem writeOne_unchanged (now : Int) (st : StoreState) (d : DData)
    (ex : DiscountRecord)
    (hf : findActive now st.records d.batch_id = some ex)
    (hle : |ex.computedPrice - d.computed_price| ≤ 1 / 100) :
    writeOne now st d = (st, .unchanged) := by
  unfold writeOne
  rw [hf]
  simp only [if_neg (not_lt.2 hle)]

/-- One write step leaves the store settled for its own decision: the
active record it would find next time is within tolerance of the decision. -/
theorem writeOne_settled (now : Int) (st : StoreState) (d : DData) :
    settled now (writeOne now st d).1 d := by
  cases hf : findActive now st.records d.batch_id with
  | some ex =>
      by_cases hlt : 1 / 100 < |ex.computedPrice - d.computed_price|
      · rw [writeOne_update now st d ex hf hlt]
        unfold settled findActive
        dsimp only
        refine ⟨{ ex with computedPrice := d.computed_price
                          discountPct := d.discount_pct
                          expiresAt := d.expires_at }, ?_, ?_⟩
        · rw [find?_map_pred]
          · unfold findActive at hf
            rw [hf]
            simp
          · intro r _
            by_cases hid : (r.id == ex.id) = true <;> simp [hid, activeB]
        · simp only [sub_self, abs_zero]
          norm_num
      · rw [writeOne_unchanged now st d ex hf (not_lt.1 hlt)]
        exact ⟨ex, hf, not_lt.1 hlt⟩
  | none =>
      rw [writeOne_create now st d hf]
      unfold settled findActive
      dsimp only
      refine ⟨⟨st.nextId, d.batch_id, d.computed_price, d.discount_pct,
        some now, none, d.expires_at, d.ml_recommended⟩, ?_, ?_⟩
      · rw [List.find?_append]
        unfold findActive at hf
        rw [hf]
        simp [List.find?_cons, activeB]
      · simp only [sub_self, abs_zero]
        norm_num

/-- Writing a decision for a different batch does not disturb a settled
batch: the record `find?` returns for the settled batch is unchanged. -/
theorem writeOne_frame (now : Int) (st : StoreState) (dW d : DData)
    (hWF : WF st) (hne : dW.batch_id ≠ d.batch_id) (hs : settled now st d) :
    settled now (writeOne now st dW).1 d := by
  obtain ⟨r, hr, hdiff⟩ := hs
  unfold findActive at hr
  cases hf : findActive now st.records dW.batch_id with
  | some ex =>
      by_cases hlt : 1 / 100 < |ex.computedPrice - dW.computed_price|
      · rw [writeOne_update now st dW ex hf hlt]
        unfold settled findActive
        dsimp only
        have hmem_r : r ∈ st.records := List.mem_of_find?_eq_some hr
        unfold findActive at hf
        have hmem_ex : ex ∈ st.records := List.mem_of_find?_eq_some hf
        have hpr : (r.batchId == d.batch_id && activeB now r) = true :=
          (List.find?_eq_some.mp hr).1
        have hpex : (ex.batchId == dW.batch_id && activeB now ex) = true :=
          (List.find?_eq_some.mp hf).1
        simp only [Bool.and_eq_true, beq_iff_eq] at hpr hpex
        have hrne : r ≠ ex := by
          intro he
          apply hne
          rw [← hpex.1, ← he, hpr.1]
        have hidne : r.id ≠ ex.id := by
          have hsym : Symmetric (fun a b : DiscountRecord => a.id ≠ b.id) :=
            fun a b hab => hab.symm
          exact hWF.1.forall hsym hmem_r hmem_ex hrne
        refine ⟨r, ?_, hdiff⟩
        rw [find?_map_pred]
        · rw [hr, Option.map_some']
          rw [if_neg (by simpa using hidne)]
        · intro x _
          by_cases hid : (x.id == ex.id) = true <;> simp [hid, activeB]
      · rw [writeOne_unchanged now st dW ex hf (not_lt.1 hlt)]
        exact ⟨r, hr, hdiff⟩
  | none =>
      rw [writeOne_create now st dW hf]
      unfold settled findActive
      dsimp only
      exact ⟨r, find?_append_some _ _ _ r hr, hdiff⟩

/-- One write step preserves well-formedness of the store. -/
theorem writeOne_WF (now : Int) (st : StoreState) (d : DData) (hWF : WF st) :
    WF (writeOne now st d).1 := by
  unfold writeOne
  cases hf : findActive now st.records d.batch_id with
  | some ex =>
      by_cases hlt : 1 / 100 < |ex.computedPrice - d.computed_price|
      · simp only [if_pos hlt]
        constructor
        · rw [List.pairwise_map]
          refine hWF.1.imp_of_mem ?_
          intro a b _ _ hab
          by_cases ha : (a.id == ex.id) = true <;>
            by_cases hb : (b.id == ex.id) = true <;>
              simpa [ha, hb] using hab
        · intro r2 hr2
          rcases List.mem_map.mp hr2 with ⟨r0, hr0, hr0e⟩
          subst hr0e
          by_cases h0 : (r0.id == ex.id) = true <;>
            simpa [h0] using hWF.2 r0 hr0
      · simp only [if_neg hlt]
        exact hWF
  | none =>
      constructor
      · rw [List.pairwise_append]
        refine ⟨hWF.1, List.pairwise_singleton _ _, ?_⟩
        intro a ha b hb
        simp only [List.mem_singleton] at hb
        subst hb
        exact Nat.ne_of_lt (hWF.2 a ha)
      · intro r2 hr2
        rcases List.mem_append.mp hr2 with h2 | h2
        · exact Nat.lt_succ_of_lt (hWF.2 r2 h2)
        · simp only [List.mem_singleton] at h2
          subst h2
          exact Nat.lt_succ_self _

/-- Componentwise addition of write statistics. -/
theorem WriteStats.add_def (a b : WriteStats) :
    a + b = ⟨a.created + b.created, a.updated + b.updated, a.errors + b.errors⟩ :=
  rfl

/-- Adding one outcome commutes with merging later statistics. -/
theorem bumpStats_add (a : WriteAction) (s t : WriteStats) :
    bumpStats a (s + t) = bumpStats a s + t := by
  cases a <;> cases s <;> cases t <;>
    simp [bumpStats, WriteStats.add_def, WriteStats.mk.injEq] <;>
      omega

/-- The sequential write loop preserves store well-formedness. -/
theorem writeMany_WF (now : Int) (ds : List DData) (st : StoreState) (hWF : WF st) :
    WF (writeMany now st ds).1 := by
  induction ds generalizing st with
  | nil => exact hWF
  | cons d ds ih =>
      simp only [writeMany]
      exact ih _ (writeOne_WF now st d hWF)

/-- Writing decisions for other batches keeps a settled batch settled. -/
theorem writeMany_frame (now : Int) (ds : List DData) (st : StoreState) (d : DData)
    (hWF : WF st) (hne : ∀ dW ∈ ds, dW.batch_id ≠ d.batch_id)
    (hs : settled now st d) :
    settled now (writeMany now st ds).1 d := by
  induction ds generalizing st with
  | nil => exact hs
  | cons d0 ds ih =>
      simp only [writeMany]
      exact ih _ (writeOne_WF now st d0 hWF)
        (fun dW hW2 => hne dW (List.mem_cons_of_mem d0 hW2))
        (writeOne_frame now st d0 d hWF (hne d0 (List.mem_cons_self d0 ds)) hs)

/-- After one pass over decisions with pairwise-distinct batch ids, the
store is settled for every one of them. -/
theorem writeMany_all_settled (now : Int) (ds : List DData) (st : StoreState)
    (hWF : WF st) (hnd : (ds.map DData.batch_id).Nodup) :
    ∀ d ∈ ds, settled now (writeMany now st ds).1 d := by
  induction ds generalizing st with
  | nil => intro d hd; simp at hd
  | cons d0 ds ih =>
      rw [List.map_cons, List.nodup_cons] at hnd
      intro d hd
      rcases List.mem_cons.mp hd with rfl | hd2
      · simp only [writeMany]
        refine writeMany_frame now ds _ d (writeOne_WF now st d hWF) ?_ ?_
        · intro dW hW2 he
          exact hnd.1 (List.mem_map.mpr ⟨dW, hW2, he⟩)
        · exact writeOne_settled now st d
      · simp only [writeMany]
        exact ih _ (writeOne_WF now st d0 hWF) hnd.2 d hd2

/-- A write pass over decisions the store is already settled for is a
complete no-op: the store is unchanged and nothing is created or updated. -/
theorem writeMany_noop (now : Int) (ds : List DData) (st : StoreState)
    (hall : ∀ d ∈ ds, settled now st d) :
    writeMany now st ds = (st, ⟨0, 0, 0⟩) := by
  induction ds with
  | nil => rfl
  | cons d ds ih =>
      obtain ⟨r, hr, hdiff⟩ := hall d (List.mem_cons_self d ds)
      have h1 : writeOne now st d = (st, .unchanged) :=
        writeOne_unchanged now st d r hr hdiff
      simp only [writeMany, h1]
      rw [ih (fun d2 hd2 => hall d2 (List.mem_cons_of_mem d hd2))]
      rfl

/-- The write loop distributes over concatenation: states chain and
statistics add. -/
theorem writeMany_append (now : Int) (l1 l2 : List DData) (st : StoreState) :
    writeMany now st (l1 ++ l2) =
      ((writeMany now (writeMany now st l1).1 l2).1,
       (writeMany now st l1).2 + (writeMany now (writeMany now st l1).1 l2).2) := by
  induction l1 generalizing st with
  | nil =>
      simp only [List.nil_append, writeMany]
      have hz : ∀ t : WriteStats, (⟨0, 0, 0⟩ : WriteStats) + t = t := by
        intro t
        cases t
        simp [WriteStats.add_def]
      rw [hz]
  | cons x l1 ih =>
      simp only [List.cons_append, writeMany, List.append_eq]
      rw [ih]
      dsimp only
      rw [bumpStats_add]

/-- The chunked write loop equals the plain write loop over the
concatenation of its chunks. -/
theorem writeChunks_eq_writeMany (now : Int) (cs : List (List DData))
    (st : StoreState) :
    writeChunks now cs st = writeMany now st cs.flatten := by
  induction cs generalizing st with
  | nil => rfl
  | cons c cs ih =>
      simp only [writeChunks, List.flatten_cons]
      rw [writeMany_append, ih]

/-- Chunking by `batch_size` does not change what
`write_batch_discounts` does: it equals the plain write loop. -/
theorem writeBatchDiscounts_eq_writeMany (now : Int) (st : StoreState)
    (data : List DData) (bs : Nat) (hbs : 1 ≤ bs) :
    writeBatchDiscounts now st data bs = writeMany now st data := by
  unfold writeBatchDiscounts
  rw [writeChunks_eq_writeMany, chunksOf_flatten bs hbs]

/-- The pipeline's discount data distributes over concatenation of batch
lists. -/
theorem pipeData_append (eng : DiscountEngine) (l1 l2 : List Batch) :
    pipeData eng (l1 ++ l2) = pipeData eng l1 ++ pipeData eng l2 := by
  unfold pipeData
  rw [processItems_append]

/-- The batch ids of the pipeline's discount data form a sublist of the
fetched batch ids: each batch contributes at most one decision, keyed by
its own id. -/
theorem pipeData_ids_sublist (eng : DiscountEngine) (l : List Batch) :
    ((pipeData eng l).map DData.batch_id).Sublist (l.map Batch.id) := by
  induction l with
  | nil => simp [pipeData, processItems]
  | cons b bs ih =>
      unfold pipeData at ih ⊢
      cases hb : b.product with
      | none =>
          simp only [processItems, hb, List.map_cons]
          exact ih.cons b.id
      | some pr =>
          simp only [processItems, hb, pureComputeF, List.map_cons]
          exact ih.cons₂ b.id

/-- The chunked pipeline equals one plain write pass over all the
discount data it computes: the final store is the same, and the
`discounts_written` statistic is the total of created plus updated. -/
theorem runChunks_state (eng : DiscountEngine) (now : Int) (cs : List (List Batch))
    (st : StoreState) :
    (runChunks (pureComputeF eng) now cs st).1
      = (writeMany now st (pipeData eng cs.flatten)).1
    ∧ (runChunks (pureComputeF eng) now cs st).2.discounts_written
      = (writeMany now st (pipeData eng cs.flatten)).2.created
        + (writeMany now st (pipeData eng cs.flatten)).2.updated := by
  induction cs generalizing st with
  | nil => exact ⟨rfl, rfl⟩
  | cons c cs ih =>
      have hflat : pipeData eng ((c :: cs).flatten)
          = pipeData eng c ++ pipeData eng cs.flatten := by
        rw [List.flatten_cons, pipeData_append]
      by_cases hemp : (processItems (pureComputeF eng) c).data.isEmpty
      · have hdc : pipeData eng c = [] := by
          unfold pipeData
          exact List.isEmpty_iff.mp hemp
        simp only [runChunks, if_pos hemp]
        rw [hflat, hdc, List.nil_append]
        refine ⟨(ih st).1, ?_⟩
        dsimp only
        rw [(ih st).2]
        omega
      · have hwr : writeBatchDiscounts now st
            (processItems (pureComputeF eng) c).data 50
            = writeMany now st (pipeData eng c) := by
          rw [writeBatchDiscounts_eq_writeMany now st _ 50 (by norm_num)]
          rfl
        simp only [runChunks, if_neg hemp]
        rw [hwr, hflat, writeMany_append]
        dsimp only
        refine ⟨(ih _).1, ?_⟩
        rw [(ih _).2]
        rw [WriteStats.add_def]
        dsimp only
        omega

/-- Pipeline/write-loop correspondence for the full recomputation: the
store after a run equals the store after one write pass over the run's
discount data, and `discounts_written` counts exactly the creates plus
updates of that pass. -/
theorem recompute_eq_writeMany (eng : DiscountEngine) (now : Int) (csize : Nat)
    (batches : List Batch) (st : StoreState) (hcs : 1 ≤ csize) :
    (recomputeDiscounts eng now csize batches st).1
      = (writeMany now st (pipeData eng batches)).1
    ∧ (recomputeDiscounts eng now csize batches st).2.discounts_written
      = (writeMany now st (pipeData eng batches)).2.created
        + (writeMany now st (pipeData eng batches)).2.updated := by
  unfold recomputeDiscounts
  have h2 := runChunks_state eng now (chunksOf csize batches) st
  rwa [chunksOf_flatten csize hcs batches] at h2

/-- Counterexample to C6: the run's statistics dict carries no
`skipped_unchanged` key at all — after a second run over one
previously-written batch (one record in the store), looking it up yields
nothing, so no statistic accounts for the skipped records. -/
theorem c6_counterexample :
    (statsDict (recomputeDiscounts ⟨[], ⟨none, none, none⟩, []⟩ 0 100
        [⟨1, some ⟨100, none⟩, 1, 5, none⟩]
        (recomputeDiscounts ⟨[], ⟨none, none, none⟩, []⟩ 0 100
          [⟨1, some ⟨100, none⟩, 1, 5, none⟩] ⟨[], 0⟩).1).2).lookup
      "skipped_unchanged" = none
    ∧ (recomputeDiscounts ⟨[], ⟨none, none, none⟩, []⟩ 0 100
        [⟨1, some ⟨100, none⟩, 1, 5, none⟩] ⟨[], 0⟩).1.records.length = 1 := by
  constructor
  · rfl
  · rw [(recompute_eq_writeMany ⟨[], ⟨none, none, none⟩, []⟩ 0 100
      [⟨1, some ⟨100, none⟩, 1, 5, none⟩] ⟨[], 0⟩ (by norm_num)).1]
    rfl

/-- C6 amended: running the recomputation pipeline twice over the same
fetched batches (distinct batch ids, well-formed store) leaves the store
of the first run exactly unchanged — identical active-discount counts and
stored prices — and the second run's `discounts_written`
(created + updated) is 0.  The statistics carry no `skipped_unchanged`
counter; unchanged records are simply not counted. -/
theorem c6_second_run_is_noop (eng : DiscountEngine) (now : Int) (csize : Nat)
    (batches : List Batch) (st0 : StoreState)
    (hWF : WF st0) (hcs : 1 ≤ csize) (hnd : (batches.map Batch.id).Nodup) :
    (recomputeDiscounts eng now csize batches
        (recomputeDiscounts eng now csize batches st0).1).1
      = (recomputeDiscounts eng now csize batches st0).1
    ∧ (recomputeDiscounts eng now csize batches
        (recomputeDiscounts eng now csize batches st0).1).2.discounts_written
      = 0 := by
  have hndD : ((pipeData eng batches).map DData.batch_id).Nodup :=
    (pipeData_ids_sublist eng batches).nodup hnd
  have h1 := recompute_eq_writeMany eng now csize batches st0 hcs
  have hall : ∀ d ∈ pipeData eng batches,
      settled now (recomputeDiscounts eng now csize batches st0).1 d := by
    rw [h1.1]
    exact writeMany_all_settled now (pipeData eng batches) st0 hWF hndD
  have hnoop : writeMany now (recomputeDiscounts eng now csize batches st0).1
      (pipeData eng batches)
      = ((recomputeDiscounts eng now csize batches st0).1, ⟨0, 0, 0⟩) :=
    writeMany_noop now (pipeData eng batches) _ hall
  have h2 := recompute_eq_writeMany eng now csize batches
    (recomputeDiscounts eng now csize batches st0).1 hcs
  constructor
  · rw [h2.1, hnoop]
  · rw [h2.2, hnoop]
    rfl

/-- Witness for C6: one batch, empty well-formed store; the second run
returns the first run's store unchanged with zero discounts written. -/
theorem c6_second_run_is_noop_witness :
    (recomputeDiscounts ⟨[], ⟨none, none, none⟩, []⟩ 0 100
        [⟨1, some ⟨100, none⟩, 1, 5, none⟩]
        (recomputeDiscounts ⟨[], ⟨none, none, none⟩, []⟩ 0 100
          [⟨1, some ⟨100, none⟩, 1, 5, none⟩] ⟨[], 0⟩).1).1
      = (recomputeDiscounts ⟨[], ⟨none, none, none⟩, []⟩ 0 100
          [⟨1, some ⟨100, none⟩, 1, 5, none⟩] ⟨[], 0⟩).1
    ∧ (recomputeDiscounts ⟨[], ⟨none, none, none⟩, []⟩ 0 100
        [⟨1, some ⟨100, none⟩, 1, 5, none⟩]
        (recomputeDiscounts ⟨[], ⟨none, none, none⟩, []⟩ 0 100
          [⟨1, some ⟨100, none⟩, 1, 5, none⟩] ⟨[], 0⟩).1).2.discounts_written
      = 0 :=
  c6_second_run_is_noop ⟨[], ⟨none, none, none⟩, []⟩ 0 100
    [⟨1, some ⟨100, none⟩, 1, 5, none⟩] ⟨[], 0⟩
    ⟨List.Pairwise.nil, by simp⟩ (by norm_num) (by simp)

end FlexiPrice
